import Mathlib

/-!
Verification of the FlatBuffers binary annotator (`src/binary_annotator.h`).

The first part of this file embeds the declarations that appear with their
bodies in the header: the region/section data model, `GetRegionType` and the
raw `GetScalar` read.  The second part models, from the design document, the
decoder members that the header only declares (`Annotate`, `BuildHeader`,
`BuildVTable`, `BuildTable`, `BuildString`, `FixMissingSections`); those
definitions carry a doc comment starting with `Modelled from the spec:`.
-/

namespace BinaryAnnotatorProof

/-- Embeds `enum class BinaryRegionType` from the header: the closed
enumeration of physical wire primitives, with the same constructor set. -/
inductive BinaryRegionType where
  | Unknown
  | UOffset
  | SOffset
  | VOffset
  | Bool
  | Byte
  | Char
  | Uint8
  | Int8
  | Uint16
  | Int16
  | Uint32
  | Int32
  | Uint64
  | Int64
  | Float
  | Double
deriving DecidableEq

/-- Byte width of each `BinaryRegionType`, as printed by the header's
`ToString` (UOffset32 and SOffset32 are 4 bytes, VOffset16 is 2 bytes,
`?uint8_t` for Unknown is 1 byte). -/
def regionTypeSize : BinaryRegionType → Nat
  | .Unknown => 1
  | .UOffset => 4
  | .SOffset => 4
  | .VOffset => 2
  | .Bool => 1
  | .Byte => 1
  | .Char => 1
  | .Uint8 => 1
  | .Int8 => 1
  | .Uint16 => 2
  | .Int16 => 2
  | .Uint32 => 4
  | .Int32 => 4
  | .Uint64 => 8
  | .Int64 => 8
  | .Float => 4
  | .Double => 8

/-- Embeds `reflection::BaseType` from the external reflection API consumed by
the header (flatbuffers reflection), with the standard constructor order. -/
inductive BaseType where
  | None
  | UType
  | Bool
  | Byte
  | UByte
  | Short
  | UShort
  | Int
  | UInt
  | Long
  | ULong
  | Float
  | Double
  | String
  | Vector
  | Obj
  | Union
deriving DecidableEq

/-- Byte width of each reflection scalar base type, per the FlatBuffers wire
format (UType/Bool/Byte/UByte are 1 byte, Short/UShort 2, Int/UInt/Float 4,
Long/ULong/Double 8); non-scalar kinds are given width 0 here. -/
def baseTypeSize : BaseType → Nat
  | .UType => 1
  | .Bool => 1
  | .Byte => 1
  | .UByte => 1
  | .Short => 2
  | .UShort => 2
  | .Int => 4
  | .UInt => 4
  | .Long => 8
  | .ULong => 8
  | .Float => 4
  | .Double => 8
  | _ => 0

/-- The twelve scalar base types that the header's `GetRegionType` switch
handles with an explicit case. -/
def isScalarBase : BaseType → Bool
  | .UType => true
  | .Bool => true
  | .Byte => true
  | .UByte => true
  | .Short => true
  | .UShort => true
  | .Int => true
  | .UInt => true
  | .Long => true
  | .ULong => true
  | .Float => true
  | .Double => true
  | _ => false

/-- Embeds `GetRegionType` from the header (lines 115-131), case for case. -/
def GetRegionType : BaseType → BinaryRegionType
  | .UType => .Uint8
  | .Bool => .Uint8
  | .Byte => .Uint8
  | .UByte => .Uint8
  | .Short => .Int16
  | .UShort => .Uint16
  | .Int => .Uint32
  | .UInt => .Uint32
  | .Long => .Int64
  | .ULong => .Uint64
  | .Float => .Float
  | .Double => .Double
  | _ => .Unknown

/-- Embeds `struct BinaryRegion` from the header (lines 64-86), with the same
member-initializer defaults: every numeric field defaults to 0 and the type to
`Unknown`. -/
structure BinaryRegion where
  offset : Nat := 0
  length : Nat := 0
  type : BinaryRegionType := .Unknown
  array_length : Nat := 0
  points_to_offset : Nat := 0
  comment : String := ""
deriving DecidableEq

/-- Embeds `enum class BinarySectionType` from the header (lines 88-99). -/
inductive BinarySectionType where
  | Unknown
  | Header
  | Table
  | RootTable
  | VTable
  | Struct
  | String
  | Vector
  | Union
  | Padding
deriving DecidableEq

/-- Embeds `struct BinarySection` from the header (lines 104-113). -/
structure BinarySection where
  name : String := ""
  type : BinarySectionType := .Unknown
  regions : List BinaryRegion := []
deriving DecidableEq

/-- Embeds the header's `GetScalar` (lines 47-49 and 203-205): a raw
pointer-cast read, `*reinterpret_cast<const T*>(binary_ + offset)`.  Because
the read is not bounds checked, the surrounding process memory is modelled as
a total byte function `mem : Nat -> Nat`; the function assembles the
little-endian value of the `width` bytes starting at `offset`, whatever they
are. -/
def GetScalar (mem : Nat → Nat) (offset : Nat) : Nat → Nat
  | 0 => 0
  | w + 1 => mem offset % 256 + 256 * GetScalar mem (offset + 1) w

/-- A concrete memory whose every byte is 0. -/
def memZero : Nat → Nat := fun _ => 0

/-- A concrete memory holding a 2-byte buffer of zeros at addresses 0 and 1,
followed by unrelated process memory (byte 7 at every higher address). -/
def memJunk : Nat → Nat := fun i => if i < 2 then 0 else 7

/-- Little-endian value of the `width` bytes of `buf` starting at `offset`
(bytes past the end read as 0): the buffer-resident case of `GetScalar`. -/
def leVal (buf : List Nat) (offset width : Nat) : Nat :=
  GetScalar (fun i => buf.getD i 0) offset width

/-- The decode-failure taxonomy of the design document (section 7). -/
inductive AnnError where
  | outOfBounds (offset width : Nat)
  | invalidVTable
  | unresolvedUnionTag
  | recursionLimitExceeded
  | malformedLength
deriving DecidableEq

/-- Human-readable error marker attached to regions and sections that record a
decode failure. -/
def errString : AnnError → String
  | .outOfBounds _ _ => "ERROR: out of bounds"
  | .invalidVTable => "ERROR: invalid vtable"
  | .unresolvedUnionTag => "ERROR: unresolved union tag"
  | .recursionLimitExceeded => "ERROR: recursion limit exceeded"
  | .malformedLength => "ERROR: malformed length"

/-- Modelled from the spec: the bounds-checked primitive reader of section 4.1
(the checked accessor the implementation routes reads through is not under
src/, which only holds the raw `GetScalar`): succeeds with the little-endian
value exactly when the requested range lies within the buffer, and otherwise
fails with an out-of-bounds error identifying the offset and width. -/
def readScalar (buf : List Nat) (offset width : Nat) : Except AnnError Nat :=
  if offset + width ≤ buf.length then .ok (leVal buf offset width)
  else .error (.outOfBounds offset width)

/-- The declared type of a schema field, restricted to the kinds exercised by
the verified claims (scalar, string, table reference). -/
inductive FieldType where
  | scalar (bt : BaseType)
  | str
  | tableRef (idx : Nat)
deriving DecidableEq

/-- A reflection field as consumed by the decoder (section 6 of the design
document): id, name and declared type. -/
structure Field where
  id : Nat := 0
  name : String := ""
  ftype : FieldType := .scalar .UByte
deriving DecidableEq

/-- A reflection object: a name and its ordered field list. -/
structure Object where
  name : String := ""
  fields : List Field := []
deriving DecidableEq

/-- The reflection graph: objects, the root object index, and whether a file
identifier is declared. -/
structure Schema where
  objects : List Object := []
  rootIdx : Nat := 0
  fileIdent : Bool := false
deriving DecidableEq

/-- Embeds the private `struct VTable` of `BinaryAnnotator` (header lines
168-179): the per-field entries (field definition and offset from the owning
table) plus the vtable's own size and the owning table's size. -/
structure VTable where
  fields : List (Field × Nat) := []
  vtable_size : Nat := 0
  table_size : Nat := 0
deriving DecidableEq

/-- The mutable decoder state of `BinaryAnnotator` (header lines 214-222):
the vtable cache `vtables_`, the seen-string-offsets set `strings_`, and the
result map `sections_` (kept as an ascending-key association list, mirroring
`std::map`). -/
structure AnnState where
  vtables_ : List (Nat × VTable) := []
  strings_ : List Nat := []
  sections_ : List (Nat × BinarySection) := []
deriving DecidableEq

/-- Keyed insert with `std::map::insert` semantics: keeps an existing entry
with the same key, and otherwise inserts in ascending key order. -/
def insertSec (k : Nat) (s : BinarySection) : List (Nat × BinarySection) → List (Nat × BinarySection)
  | [] => [(k, s)]
  | (k', s') :: rest =>
    if k < k' then (k, s) :: (k', s') :: rest
    else if k = k' then (k', s') :: rest
    else (k', s') :: insertSec k s rest

/-- The explicit error-marker section recorded when decoding a subtree fails
(section 7 of the design document). -/
def errorSection (T : Nat) (e : AnnError) : BinarySection :=
  { name := "ERROR", type := .Unknown,
    regions := [{ offset := T, length := 0, type := .Unknown, comment := errString e }] }

/-- Record a subtree decode failure as an error-marker section at its offset;
the rest of the state is untouched so sibling decodes continue. -/
def recordError (st : AnnState) (T : Nat) (e : AnnError) : AnnState :=
  { st with sections_ := insertSec T (errorSection T e) st.sections_ }

/-- Lookup in the vtable cache `vtables_`. -/
def lookupVT (V : Nat) (l : List (Nat × VTable)) : Option VTable :=
  match l.find? (fun e => e.1 == V) with
  | some e => some e.2
  | none => none

/-- Target of the 4-byte backward (signed) offset stored at a table start `T`:
the raw 32-bit value is interpreted in two's complement and subtracted from
`T`; `none` when the resulting absolute offset would be negative. -/
def sOffsetTarget (T raw : Nat) : Option Nat :=
  let s : Int := if raw < 2147483648 then (raw : Int) else (raw : Int) - 4294967296
  let v : Int := (T : Int) - s
  if 0 ≤ v then some v.toNat else none

/-- Total byte span of a section: the sum of its regions' lengths (section 3
of the design document). -/
def sectionSize (s : BinarySection) : Nat := (s.regions.map (fun r => r.length)).sum

/-- Modelled from the spec: the vtable decode step of the VTable resolver
(section 4.3; `BinaryAnnotator::BuildVTable` is only declared under src/).
Reads `vtable_size` and `table_size` at `V` (failing with InvalidVTable when
`vtable_size` is smaller than the mandatory 4-byte header and with
OutOfBounds when the vtable does not fit in the buffer), reads one 2-byte
slot per schema field at `V + 4 + 2*i` when `4 + 2*i < vtable_size` (a slot
of 0 means the field is absent), records slots beyond the schema-known fields
as unknown-field regions, and returns the cache entry with the VTable
section. -/
def decodeVTableAt (buf : List Nat) (V : Nat) (obj : Object) : Except AnnError (VTable × BinarySection) :=
  match readScalar buf V 2, readScalar buf (V + 2) 2 with
  | .ok vsz, .ok tsz =>
    if vsz < 4 then .error .invalidVTable
    else if V + vsz ≤ buf.length then
      let slots := (List.range obj.fields.length).map
        (fun i => if 4 + 2 * i < vsz then leVal buf (V + 4 + 2 * i) 2 else 0)
      let entries := (obj.fields.zip slots).filter (fun p => decide (p.2 ≠ 0))
      let slotRegions := (List.range obj.fields.length).filterMap (fun i =>
        if 4 + 2 * i < vsz then
          some { offset := V + 4 + 2 * i, length := 2, type := .VOffset,
                 comment := (obj.fields.getD i {}).name }
        else none)
      let unknownRegions := (List.range ((vsz - 4) / 2 - obj.fields.length)).map (fun j =>
        { offset := V + 4 + 2 * (obj.fields.length + j), length := 2, type := .VOffset,
          comment := "unknown field" })
      .ok ({ fields := entries, vtable_size := vsz, table_size := tsz },
           { name := obj.name, type := .VTable,
             regions := { offset := V, length := 2, type := .Uint16, comment := "size of this vtable" }
               :: { offset := V + 2, length := 2, type := .Uint16, comment := "size of referring table" }
               :: (slotRegions ++ unknownRegions) })
    else .error (.outOfBounds V vsz)
  | .error e, _ => .error e
  | _, .error e => .error e

/-- Modelled from the spec: the VTable resolver (section 4.3;
`BinaryAnnotator::BuildVTable` is only declared under src/).  Reads the
4-byte backward offset at the table start `T`, computes `V = T - value`;
when `V` is already in the `vtables_` cache the cached decode is reused and
no section is inserted again; otherwise the vtable at `V` is decoded, its
section inserted at key `V` and the decode cached. -/
def BuildVTable (buf : List Nat) (T : Nat) (obj : Object) (st : AnnState) :
    AnnState × Except AnnError (Nat × VTable) :=
  match readScalar buf T 4 with
  | .error e => (st, .error e)
  | .ok raw =>
    match sOffsetTarget T raw with
    | none => (st, .error (.outOfBounds T 4))
    | some V =>
      match lookupVT V st.vtables_ with
      | some vt => (st, .ok (V, vt))
      | none =>
        match decodeVTableAt buf V obj with
        | .error e => (st, .error e)
        | .ok (vt, sec) =>
          ({ st with vtables_ := (V, vt) :: st.vtables_,
                     sections_ := insertSec V sec st.sections_ },
           .ok (V, vt))

/-- The String section emitted for a string at offset `S` with length `L`:
the 4-byte length region followed by the `L`-byte content region. -/
def stringSection (S L : Nat) (nm : String) : BinarySection :=
  { name := nm, type := .String,
    regions := [{ offset := S, length := 4, type := .Uint32, comment := "length of string" },
                { offset := S + 4, length := L, type := .Char, array_length := L, comment := nm }] }

/-- Modelled from the spec: the String decoder (section 4.6;
`BinaryAnnotator::BuildString` is only declared under src/).  Before decoding
it checks the per-run seen-string-offsets set `strings_` and skips re-emitting
a duplicate section when the offset was already annotated; otherwise it reads
the 4-byte length `L`, checks the span against the buffer (MalformedLength on
excess), and inserts the String section at `S`. -/
def BuildString (buf : List Nat) (S : Nat) (f : Field) (st : AnnState) : AnnState :=
  if S ∈ st.strings_ then st
  else
    let st1 : AnnState := { st with strings_ := S :: st.strings_ }
    match readScalar buf S 4 with
    | .error e => recordError st1 S e
    | .ok L =>
      if S + 4 + L ≤ buf.length then
        { st1 with sections_ := insertSec S (stringSection S L f.name) st1.sections_ }
      else recordError st1 S .malformedLength

/-- The 4-byte forward-offset region stored at `loc` and pointing at the
absolute target `tgt`. -/
def refRegion (loc tgt : Nat) (nm : String) : BinaryRegion :=
  { offset := loc, length := 4, type := .UOffset, points_to_offset := tgt, comment := nm }

/-- The leading 4-byte backward-offset region of a table at `T`, pointing at
its vtable `V`. -/
def leadRegion (T V : Nat) : BinaryRegion :=
  { offset := T, length := 4, type := .SOffset, points_to_offset := V, comment := "offset to vtable" }

/-- The fixed-width region emitted for a present scalar field at `loc`. -/
def scalarRegion (loc : Nat) (bt : BaseType) (nm : String) : BinaryRegion :=
  { offset := loc, length := regionTypeSize (GetRegionType bt), type := GetRegionType bt,
    comment := nm }

/-- The error-marker region emitted when the 4-byte offset of a reference
field cannot be read. -/
def errRegion (loc : Nat) (e : AnnError) : BinaryRegion :=
  { offset := loc, length := 4, type := .UOffset, comment := errString e }

/-- Modelled from the spec: the per-present-field dispatch of the Table
decoder (section 4.4; `BinaryAnnotator::BuildTable` is only declared under
src/).  Scalars yield one fixed-width region; string and table fields store a
4-byte forward offset at `T + field_offset` whose absolute target is
`(T + field_offset) + value`, recorded in the region's `points_to_offset`
before recursing.  A failed offset read aborts only that field: an
error-marker region is emitted and the remaining fields continue.  `recT` is
the continuation used for table-typed targets (instantiated by `BuildTable`
with itself at one smaller recursion budget). -/
def buildFields (buf : List Nat) (T : Nat) (recT : Nat → Nat → AnnState → AnnState) :
    List (Field × Nat) → AnnState → AnnState × List BinaryRegion
  | [], st => (st, [])
  | (f, fo) :: rest, st =>
    match f.ftype with
    | .scalar bt =>
      let p := buildFields buf T recT rest st
      (p.1, scalarRegion (T + fo) bt f.name :: p.2)
    | .str =>
      match readScalar buf (T + fo) 4 with
      | .error e =>
        let p := buildFields buf T recT rest st
        (p.1, errRegion (T + fo) e :: p.2)
      | .ok u =>
        let p := buildFields buf T recT rest (BuildString buf (T + fo + u) f st)
        (p.1, refRegion (T + fo) (T + fo + u) f.name :: p.2)
    | .tableRef idx =>
      match readScalar buf (T + fo) 4 with
      | .error e =>
        let p := buildFields buf T recT rest st
        (p.1, errRegion (T + fo) e :: p.2)
      | .ok u =>
        let p := buildFields buf T recT rest (recT idx (T + fo + u) st)
        (p.1, refRegion (T + fo) (T + fo + u) f.name :: p.2)

/-- Modelled from the spec: the Table decoder (section 4.4;
`BinaryAnnotator::BuildTable` is only declared under src/), with the
recursion-depth cap required by section 5: at budget 0 the decoder records a
RecursionLimitExceeded error section at the table offset instead of
recursing further.  Otherwise it resolves the vtable (a resolver failure is
recorded as an error section for this subtree only), decodes the present
fields, and inserts the Table (or RootTable) section whose regions are the
leading vtable-offset region followed by the field regions. -/
def BuildTable (buf : List Nat) (sch : Schema) :
    Nat → Nat → BinarySectionType → Object → AnnState → AnnState
  | 0, T, _, _, st => recordError st T .recursionLimitExceeded
  | fuel + 1, T, secT, obj, st =>
    match BuildVTable buf T obj st with
    | (st1, .error e) => recordError st1 T e
    | (st1, .ok (V, vt)) =>
      let p := buildFields buf T
        (fun idx tgt s =>
          match sch.objects.get? idx with
          | some o => BuildTable buf sch fuel tgt .Table o s
          | none => s)
        vt.fields st1
      let sec : BinarySection := { name := obj.name, type := secT, regions := leadRegion T V :: p.2 }
      { p.1 with sections_ := insertSec T sec p.1.sections_ }

/-- Modelled from the spec: the Header decoder (section 4.2;
`BinaryAnnotator::BuildHeader` is only declared under src/).  Reads the
4-byte forward offset at absolute offset 0; the root object's absolute offset
is `0 + value`; emits a Header section containing that offset region plus,
when the schema declares a file identifier, a fixed-length (4-byte)
character-array region immediately following it. -/
def BuildHeader (buf : List Nat) (sch : Schema) : Except AnnError (Nat × BinarySection) :=
  match readScalar buf 0 4 with
  | .error e => .error e
  | .ok v =>
    .ok (0 + v,
      { name := "", type := .Header,
        regions := refRegion 0 (0 + v) "offset to root table"
          :: (if sch.fileIdent then
                [{ offset := 4, length := 4, type := .Char, array_length := 4,
                   comment := "File Identifier" }]
              else []) })

/-- The Padding section synthesized by the gap-fill pass for an unaccounted
byte range. -/
def PaddingSection (off len : Nat) : BinarySection :=
  { name := "padding", type := .Padding,
    regions := [{ offset := off, length := len, type := .Unknown, comment := "padding" }] }

/-- Modelled from the spec: the cursor walk of the gap-fill pass (section
4.9).  `cursor` is the running end of the previous section; wherever the next
section's offset exceeds it a Padding section spanning exactly the gap is
inserted, and a final Padding section covers any tail up to the buffer
length. -/
def fixFrom (len : Nat) : Nat → List (Nat × BinarySection) → List (Nat × BinarySection)
  | cursor, [] => if cursor < len then [(cursor, PaddingSection cursor (len - cursor))] else []
  | cursor, (off, s) :: rest =>
    if cursor < off then
      (cursor, PaddingSection cursor (off - cursor)) :: (off, s) :: fixFrom len (off + sectionSize s) rest
    else (off, s) :: fixFrom len (off + sectionSize s) rest

/-- Modelled from the spec: `BinaryAnnotator::FixMissingSections` (section
4.9; only declared under src/), applied to the offset-sorted section map with
the cursor starting at 0. -/
def FixMissingSections (len : Nat) (secs : List (Nat × BinarySection)) : List (Nat × BinarySection) :=
  fixFrom len 0 secs

/-- Well-formedness of an offset-sorted section list against a cursor: each
section starts at or after the cursor and the final end stays within `len`
(this is the shape the decode pass produces for valid encoded binaries). -/
def chainOK : Nat → Nat → List (Nat × BinarySection) → Bool
  | cursor, len, [] => cursor ≤ len
  | cursor, len, (off, s) :: rest => cursor ≤ off && chainOK (off + sectionSize s) len rest

/-- Whether the section entry `e` covers byte index `i`. -/
def covers (e : Nat × BinarySection) (i : Nat) : Bool :=
  decide (e.1 ≤ i ∧ i < e.1 + sectionSize e.2)

/-- Number of section entries of `l` covering byte index `i`. -/
def coverCount (l : List (Nat × BinarySection)) (i : Nat) : Nat :=
  l.countP (fun e => covers e i)

/-- Modelled from the spec: the orchestrator (section 2 control flow and
section 7 propagation; `BinaryAnnotator::Annotate` is only declared under
src/).  Decodes the header; fails outright with OutOfBounds when the root
offset points beyond the buffer; otherwise decodes the root table with
recursion budget `buf.length + 1` and gap-fills the resulting section map. -/
def annotate (sch : Schema) (buf : List Nat) : Except AnnError (List (Nat × BinarySection)) :=
  match BuildHeader buf sch with
  | .error e => .error e
  | .ok (root, hsec) =>
    if root < buf.length then
      let st1 := BuildTable buf sch (buf.length + 1) root .RootTable
        (sch.objects.getD sch.rootIdx {}) { sections_ := [(0, hsec)] }
      .ok (FixMissingSections buf.length st1.sections_)
    else .error (.outOfBounds root 1)

/-- The `BinaryAnnotator` object: the schema and binary given to the
constructor, plus the mutable member state (header lines 156-223). -/
structure Annotator where
  schema : Schema
  binary : List Nat
  st : AnnState := {}

/-- Modelled from the spec: the member `Annotate` (section 3 lifecycles): the
vtable cache, the seen-string set and the result map exist only for the
duration of one invocation — the call runs the decode from empty caches and
discards them after, leaving the member state empty. -/
def Annotate (a : Annotator) : Annotator × Except AnnError (List (Nat × BinarySection)) :=
  ({ a with st := {} }, annotate a.schema a.binary)

/-- Concrete buffer for the vtable-dedup scenario: a shared vtable at offset
0 (size 4, table size 4), a table A at offset 4 (backward offset 4) and a
table B at offset 8 (backward offset 8), both resolving to vtable offset 0. -/
def bufShared : List Nat := [4, 0, 4, 0, 4, 0, 0, 0, 8, 0, 0, 0]

/-- A field-less object used by the vtable-dedup scenario. -/
def objEmpty : Object := { name := "O" }

/-- Concrete buffer for the string-dedup scenario: two 4-byte forward offsets
at 0 and 4, both resolving to the string at offset 8 (length 2, content
"hi"). -/
def bufTwoStr : List Nat := [8, 0, 0, 0, 4, 0, 0, 0, 2, 0, 0, 0, 104, 105]

/-- A string-typed field named a. -/
def fStrA : Field := { id := 0, name := "a", ftype := .str }

/-- A string-typed field named b. -/
def fStrB : Field := { id := 1, name := "b", ftype := .str }

/-- A table-target continuation that decodes nothing (used to exercise
`buildFields` in isolation). -/
def recNone : Nat → Nat → AnnState → AnnState := fun _ _ st => st

/-- Concrete buffer for the recursion-limit scenario: a vtable at 0 declaring
one present table-typed field, a table at 6 whose field offset at 10 points
at a further table at 14. -/
def bufChain : List Nat := [6, 0, 8, 0, 4, 0, 6, 0, 0, 0, 4, 0, 0, 0, 14, 0, 0, 0]

/-- The object of the recursion-limit scenario: one table-typed field
referencing object 0 (itself). -/
def objChain : Object := { name := "O6", fields := [{ id := 0, name := "f", ftype := .tableRef 0 }] }

/-- The schema of the recursion-limit scenario. -/
def schChain : Schema := { objects := [objChain] }

/-- Concrete buffer for the subtree-error scenario: header offset 12, vtable
at 4 (size 8, two present fields at table offsets 4 and 5), root table at 12
with a scalar byte 42 at offset 16 and a table-typed field whose forward
offset 100 at offset 17 points beyond the buffer (target 117). -/
def bufSib : List Nat :=
  [12, 0, 0, 0, 8, 0, 9, 0, 4, 0, 5, 0, 8, 0, 0, 0, 42, 100, 0, 0, 0]

/-- The object of the subtree-error scenario: a one-byte scalar field and a
table-typed field. -/
def objSib : Object :=
  { name := "O7",
    fields := [{ id := 0, name := "hp", ftype := .scalar .UByte },
               { id := 1, name := "child", ftype := .tableRef 0 }] }

/-- The schema of the subtree-error scenario. -/
def schSib : Schema := { objects := [objSib] }

/-- A one-region Table section spanning bytes 2 to 4, used as the concrete
input of the gap-fill witness. -/
def secGap : BinarySection :=
  { name := "t", type := .Table, regions := [{ offset := 2, length := 3, type := .Uint8 }] }

/-- A memory agreeing with `memJunk` everywhere except at address 0. -/
def memJunk2 : Nat → Nat := fun i => if i = 0 then 9 else memJunk i

/-- The result map of `annotate` on the subtree-error scenario. -/
def resSib : List (Nat × BinarySection) := ((annotate schSib bufSib).toOption).getD []

/-- Section 1: lemmas about the keyed insert `insertSec`. -/
theorem mem_insertSec (k : Nat) (s : BinarySection) (l : List (Nat × BinarySection))
    (e : Nat × BinarySection) (h : e ∈ l) : e ∈ insertSec k s l := by
  induction l with
  | nil => simp at h
  | cons hd tl ih =>
    obtain ⟨k1, s1⟩ := hd
    by_cases h1 : k < k1
    · simp only [insertSec, if_pos h1]
      exact List.mem_cons_of_mem _ h
    · by_cases h2 : k = k1
      · simp only [insertSec, if_neg h1, if_pos h2]
        exact h
      · simp only [insertSec, if_neg h1, if_neg h2]
        rcases List.mem_cons.mp h with h3 | h3
        · exact List.mem_cons.mpr (Or.inl h3)
        · exact List.mem_cons.mpr (Or.inr (ih h3))

/-- Every entry of `insertSec k s l` is the inserted entry or an original. -/
theorem mem_insertSec_elim (k : Nat) (s : BinarySection) (l : List (Nat × BinarySection))
    (e : Nat × BinarySection) (h : e ∈ insertSec k s l) : e = (k, s) ∨ e ∈ l := by
  induction l with
  | nil =>
    simp only [insertSec] at h
    simp at h
    exact Or.inl h
  | cons hd tl ih =>
    obtain ⟨k1, s1⟩ := hd
    by_cases h1 : k < k1
    · simp only [insertSec, if_pos h1] at h
      rcases List.mem_cons.mp h with h3 | h3
      · exact Or.inl h3
      · exact Or.inr h3
    · by_cases h2 : k = k1
      · simp only [insertSec, if_neg h1, if_pos h2] at h
        exact Or.inr h
      · simp only [insertSec, if_neg h1, if_neg h2] at h
        rcases List.mem_cons.mp h with h3 | h3
        · exact Or.inr (List.mem_cons.mpr (Or.inl h3))
        · rcases ih h3 with h4 | h4
          · exact Or.inl h4
          · exact Or.inr (List.mem_cons.mpr (Or.inr h4))

/-- Inserting at a key absent from the list adds the entry. -/
theorem insertSec_self (k : Nat) (s : BinarySection) (l : List (Nat × BinarySection))
    (hfresh : ∀ e ∈ l, e.1 ≠ k) : (k, s) ∈ insertSec k s l := by
  induction l with
  | nil => simp [insertSec]
  | cons hd tl ih =>
    obtain ⟨k1, s1⟩ := hd
    have hk1 : k1 ≠ k := hfresh (k1, s1) (List.mem_cons_self _ _)
    by_cases h1 : k < k1
    · simp only [insertSec, if_pos h1]
      exact List.mem_cons_self _ _
    · have h2 : ¬ k = k1 := fun h => hk1 h.symm
      simp only [insertSec, if_neg h1, if_neg h2]
      exact List.mem_cons_of_mem _ (ih (fun e he => hfresh e (List.mem_cons_of_mem _ he)))

/-- Counting over an insert at a fresh key adds the inserted entry's count. -/
theorem countP_insertSec (p : Nat × BinarySection → Bool) (k : Nat) (s : BinarySection)
    (l : List (Nat × BinarySection)) (hfresh : ∀ e ∈ l, e.1 ≠ k) :
    (insertSec k s l).countP p = l.countP p + (if p (k, s) then 1 else 0) := by
  induction l with
  | nil => simp [insertSec, List.countP_cons]
  | cons hd tl ih =>
    obtain ⟨k1, s1⟩ := hd
    have hk1 : k1 ≠ k := hfresh (k1, s1) (List.mem_cons_self _ _)
    by_cases h1 : k < k1
    · simp only [insertSec, if_pos h1, List.countP_cons]
    · have h2 : ¬ k = k1 := fun h => hk1 h.symm
      simp only [insertSec, if_neg h1, if_neg h2, List.countP_cons]
      rw [ih (fun e he => hfresh e (List.mem_cons_of_mem _ he))]
      omega

/-- Section 2: lemmas about the gap-fill pass. -/
theorem sectionSize_Padding (off n : Nat) : sectionSize (PaddingSection off n) = n := by
  simp [sectionSize, PaddingSection]

/-- The cursor of a well-formed chain never exceeds the buffer length. -/
theorem chainOK_le (len : Nat) :
    ∀ (l : List (Nat × BinarySection)) (c : Nat), chainOK c len l = true → c ≤ len := by
  intro l
  induction l with
  | nil => intro c h; simpa [chainOK] using h
  | cons hd tl ih =>
    intro c h
    obtain ⟨off, s⟩ := hd
    simp only [chainOK, Bool.and_eq_true, decide_eq_true_eq] at h
    have h2 := ih (off + sectionSize s) h.2
    omega

/-- Cover count distributes over cons. -/
theorem coverCount_cons (e : Nat × BinarySection) (l : List (Nat × BinarySection)) (i : Nat) :
    coverCount (e :: l) i = coverCount l i + (if e.1 ≤ i ∧ i < e.1 + sectionSize e.2 then 1 else 0) := by
  simp [coverCount, List.countP_cons, covers]

/-- Cover count of the empty list. -/
theorem coverCount_nil (i : Nat) : coverCount [] i = 0 := rfl

/-- Under a well-formed chain, the gap-filled list covers each index in
`[cursor, len)` exactly once and covers nothing else. -/
theorem fix_coverCount (len : Nat) :
    ∀ (l : List (Nat × BinarySection)) (c : Nat), chainOK c len l = true →
      ∀ i : Nat, coverCount (fixFrom len c l) i = if c ≤ i ∧ i < len then 1 else 0 := by
  intro l
  induction l with
  | nil =>
    intro c h i
    have hc : c ≤ len := by simpa [chainOK] using h
    by_cases h1 : c < len
    · simp only [fixFrom, if_pos h1, coverCount_cons, coverCount_nil, sectionSize_Padding]
      split_ifs <;> omega
    · simp only [fixFrom, if_neg h1, coverCount_nil]
      split_ifs <;> omega
  | cons hd tl ih =>
    intro c h i
    obtain ⟨off, s⟩ := hd
    simp only [chainOK, Bool.and_eq_true, decide_eq_true_eq] at h
    obtain ⟨hco, hrest⟩ := h
    have hlen : off + sectionSize s ≤ len := chainOK_le len tl _ hrest
    have ihr := ih (off + sectionSize s) hrest i
    by_cases h1 : c < off
    · simp only [fixFrom, if_pos h1, coverCount_cons, sectionSize_Padding, ihr]
      split_ifs <;> omega
    · simp only [fixFrom, if_neg h1, coverCount_cons, ihr]
      split_ifs <;> omega

/-- Gap-fill keeps every original entry. -/
theorem fix_mem_orig (len : Nat) :
    ∀ (l : List (Nat × BinarySection)) (c : Nat) (e : Nat × BinarySection),
      e ∈ l → e ∈ fixFrom len c l := by
  intro l
  induction l with
  | nil => intro c e h; simp at h
  | cons hd tl ih =>
    intro c e h
    obtain ⟨off, s⟩ := hd
    rcases List.mem_cons.mp h with h3 | h3
    · by_cases h1 : c < off
      · simp only [fixFrom, if_pos h1]
        exact List.mem_cons_of_mem _ (List.mem_cons.mpr (Or.inl h3))
      · simp only [fixFrom, if_neg h1]
        exact List.mem_cons.mpr (Or.inl h3)
    · by_cases h1 : c < off
      · simp only [fixFrom, if_pos h1]
        exact List.mem_cons_of_mem _ (List.mem_cons_of_mem _ (ih _ _ h3))
      · simp only [fixFrom, if_neg h1]
        exact List.mem_cons_of_mem _ (ih _ _ h3)

/-- Every entry of the gap-filled list is an original entry or a synthesized
Padding section. -/
theorem fix_mem_elim (len : Nat) :
    ∀ (l : List (Nat × BinarySection)) (c : Nat) (e : Nat × BinarySection),
      e ∈ fixFrom len c l → e ∈ l ∨ e.2.type = BinarySectionType.Padding := by
  intro l
  induction l with
  | nil =>
    intro c e h
    by_cases h1 : c < len
    · simp only [fixFrom, if_pos h1] at h
      simp at h
      subst h
      exact Or.inr rfl
    · simp only [fixFrom, if_neg h1] at h
      simp at h
  | cons hd tl ih =>
    intro c e h
    obtain ⟨off, s⟩ := hd
    by_cases h1 : c < off
    · simp only [fixFrom, if_pos h1] at h
      rcases List.mem_cons.mp h with h3 | h3
      · subst h3; exact Or.inr rfl
      · rcases List.mem_cons.mp h3 with h4 | h4
        · exact Or.inl (List.mem_cons.mpr (Or.inl h4))
        · rcases ih _ _ h4 with h5 | h5
          · exact Or.inl (List.mem_cons.mpr (Or.inr h5))
          · exact Or.inr h5
    · simp only [fixFrom, if_neg h1] at h
      rcases List.mem_cons.mp h with h3 | h3
      · exact Or.inl (List.mem_cons.mpr (Or.inl h3))
      · rcases ih _ _ h3 with h5 | h5
        · exact Or.inl (List.mem_cons.mpr (Or.inr h5))
        · exact Or.inr h5

/-- C1: after the gap-fill pass the section map is a total, non-overlapping
partition of the byte range `[0, buffer_length)` — every index below the
buffer length is covered by exactly one section and no index at or beyond it
is covered — and the pass only adds sections: every original section survives
unchanged and every entry that is not an original is a Padding section
spanning exactly an uncovered gap.  The hypothesis `chainOK` is the
well-formedness the decode pass guarantees for valid encoded binaries:
sections listed in ascending offset order, non-overlapping, within the
buffer. -/
theorem FixMissingSections_partition (len : Nat) (secs : List (Nat × BinarySection))
    (h : chainOK 0 len secs = true) :
    (∀ i : Nat, coverCount (FixMissingSections len secs) i = if i < len then 1 else 0)
    ∧ (∀ e ∈ secs, e ∈ FixMissingSections len secs)
    ∧ (∀ e ∈ FixMissingSections len secs, e ∈ secs ∨ e.2.type = BinarySectionType.Padding) := by
  refine ⟨fun i => ?_, fun e he => fix_mem_orig len secs 0 e he,
    fun e he => fix_mem_elim len secs 0 e he⟩
  have h2 := fix_coverCount len secs 0 h i
  simpa [FixMissingSections] using h2

/-- Witness for C1: the partition property evaluated at a concrete section
list (one table section over bytes 2 to 4 of a 10-byte buffer). -/
theorem FixMissingSections_partition_witness :
    (∀ i : Nat, coverCount (FixMissingSections 10 [(2, secGap)]) i = if i < 10 then 1 else 0)
    ∧ (∀ e ∈ [(2, secGap)], e ∈ FixMissingSections 10 [(2, secGap)])
    ∧ (∀ e ∈ FixMissingSections 10 [(2, secGap)],
        e ∈ [(2, secGap)] ∨ e.2.type = BinarySectionType.Padding) :=
  FixMissingSections_partition 10 [(2, secGap)] (by decide)

/-- Recording an error keeps every existing section. -/
theorem sections_recordError (st : AnnState) (T : Nat) (err : AnnError)
    (e : Nat × BinarySection) (h : e ∈ st.sections_) : e ∈ (recordError st T err).sections_ :=
  mem_insertSec _ _ _ _ h

/-- The string decoder keeps every existing section. -/
theorem sections_BuildString (buf : List Nat) (S : Nat) (f : Field) (st : AnnState)
    (e : Nat × BinarySection) (h : e ∈ st.sections_) : e ∈ (BuildString buf S f st).sections_ := by
  unfold BuildString
  by_cases h1 : S ∈ st.strings_
  · simpa [h1] using h
  · simp only [if_neg h1]
    cases h2 : readScalar buf S 4 with
    | error err => exact sections_recordError _ _ _ _ h
    | ok L =>
      by_cases h3 : S + 4 + L ≤ buf.length
      · simp only [if_pos h3]
        exact mem_insertSec _ _ _ _ h
      · simp only [if_neg h3]
        exact sections_recordError _ _ _ _ h

/-- The vtable resolver keeps every existing section. -/
theorem sections_BuildVTable (buf : List Nat) (T : Nat) (obj : Object) (st : AnnState)
    (e : Nat × BinarySection) (h : e ∈ st.sections_) :
    e ∈ (BuildVTable buf T obj st).1.sections_ := by
  unfold BuildVTable
  repeat' split
  all_goals first
    | exact h
    | exact mem_insertSec _ _ _ _ h

/-- The field dispatch keeps every existing section, provided the table
continuation does. -/
theorem sections_buildFields (buf : List Nat) (T : Nat)
    (recT : Nat → Nat → AnnState → AnnState)
    (hrec : ∀ idx tgt s (e : Nat × BinarySection), e ∈ s.sections_ → e ∈ (recT idx tgt s).sections_) :
    ∀ (l : List (Field × Nat)) (st : AnnState) (e : Nat × BinarySection),
      e ∈ st.sections_ → e ∈ (buildFields buf T recT l st).1.sections_ := by
  intro l
  induction l with
  | nil => intro st e h; exact h
  | cons hd tl ih =>
    intro st e h
    obtain ⟨f, fo⟩ := hd
    cases hft : f.ftype with
    | scalar bt => simpa [buildFields, hft] using ih st e h
    | str =>
      cases h2 : readScalar buf (T + fo) 4 with
      | error err => simpa [buildFields, hft, h2] using ih st e h
      | ok u =>
        simpa [buildFields, hft, h2] using
          ih (BuildString buf (T + fo + u) f st) e (sections_BuildString _ _ _ _ _ h)
    | tableRef idx =>
      cases h2 : readScalar buf (T + fo) 4 with
      | error err => simpa [buildFields, hft, h2] using ih st e h
      | ok u =>
        simpa [buildFields, hft, h2] using
          ih (recT idx (T + fo + u) st) e (hrec idx (T + fo + u) st e h)

/-- The table decoder keeps every existing section: a failure while decoding
one subtree never removes the sections of previously decoded siblings. -/
theorem sections_BuildTable (buf : List Nat) (sch : Schema) :
    ∀ (fuel T : Nat) (secT : BinarySectionType) (obj : Object) (st : AnnState)
      (e : Nat × BinarySection), e ∈ st.sections_ →
      e ∈ (BuildTable buf sch fuel T secT obj st).sections_ := by
  intro fuel
  induction fuel with
  | zero => intro T secT obj st e h; exact sections_recordError _ _ _ _ h
  | succ fuel ih =>
    intro T secT obj st e h
    unfold BuildTable
    cases hbv : BuildVTable buf T obj st with
    | mk st1 r =>
      have h1 : e ∈ st1.sections_ := by
        have h2 := sections_BuildVTable buf T obj st e h
        rwa [hbv] at h2
      cases r with
      | error err => exact sections_recordError _ _ _ _ h1
      | ok p =>
        obtain ⟨V, vt⟩ := p
        refine mem_insertSec _ _ _ _ ?_
        refine sections_buildFields buf T _ ?_ vt.fields st1 e h1
        intro idx tgt s e2 h3
        cases hobj : sch.objects.get? idx with
        | none => simpa [hobj] using h3
        | some o => simpa [hobj] using ih tgt .Table o s e2 h3

/-- C4: two fields referencing the same string offset `S` yield exactly one
String section at `S`: the first reference decodes and inserts the section
and records `S` in the seen-string-offsets set, the second finds `S` in the
set and skips re-emitting, while both referencing regions still record
`points_to_offset = S`. -/
theorem string_dedup (buf : List Nat) (T fo1 fo2 u1 u2 S L : Nat) (f1 f2 : Field)
    (recT : Nat → Nat → AnnState → AnnState) (st0 : AnnState)
    (h1 : f1.ftype = FieldType.str) (h2 : f2.ftype = FieldType.str)
    (hr1 : readScalar buf (T + fo1) 4 = Except.ok u1) (hS1 : T + fo1 + u1 = S)
    (hr2 : readScalar buf (T + fo2) 4 = Except.ok u2) (hS2 : T + fo2 + u2 = S)
    (hseen : S ∉ st0.strings_)
    (hfresh : ∀ e ∈ st0.sections_, e.1 ≠ S)
    (hlen : readScalar buf S 4 = Except.ok L)
    (hspan : S + 4 + L ≤ buf.length) :
    (buildFields buf T recT [(f1, fo1), (f2, fo2)] st0).2
      = [refRegion (T + fo1) S f1.name, refRegion (T + fo2) S f2.name]
    ∧ (buildFields buf T recT [(f1, fo1), (f2, fo2)] st0).1.sections_.countP
        (fun e => decide (e.1 = S ∧ e.2.type = BinarySectionType.String)) = 1 := by
  have eS1 : BuildString buf S f1 st0
      = { st0 with strings_ := S :: st0.strings_,
                   sections_ := insertSec S (stringSection S L f1.name) st0.sections_ } := by
    unfold BuildString
    rw [if_neg hseen]
    simp only [hlen]
    rw [if_pos hspan]
  have eS2 : BuildString buf S f2
      ({ st0 with strings_ := S :: st0.strings_,
                  sections_ := insertSec S (stringSection S L f1.name) st0.sections_ })
      = { st0 with strings_ := S :: st0.strings_,
                   sections_ := insertSec S (stringSection S L f1.name) st0.sections_ } := by
    unfold BuildString
    rw [if_pos (List.mem_cons_self S st0.strings_)]
  have e1 : buildFields buf T recT [(f1, fo1), (f2, fo2)] st0
      = ({ st0 with strings_ := S :: st0.strings_,
                    sections_ := insertSec S (stringSection S L f1.name) st0.sections_ },
         [refRegion (T + fo1) S f1.name, refRegion (T + fo2) S f2.name]) := by
    simp only [buildFields, h1, h2, hr1, hr2, hS1, hS2, eS1, eS2]
  refine ⟨by rw [e1], ?_⟩
  rw [e1]
  have hcount := countP_insertSec
    (fun e => decide (e.1 = S ∧ e.2.type = BinarySectionType.String))
    S (stringSection S L f1.name) st0.sections_ hfresh
  have hzero : st0.sections_.countP
      (fun e => decide (e.1 = S ∧ e.2.type = BinarySectionType.String)) = 0 := by
    refine List.countP_eq_zero.mpr ?_
    intro e he
    simp [hfresh e he]
  dsimp only
  rw [hcount, hzero]
  simp [stringSection]

/-- Witness for C4: two string fields at table offsets 0 and 4 of a concrete
buffer, both referencing the string at offset 8. -/
theorem string_dedup_witness :
    (buildFields bufTwoStr 0 recNone [(fStrA, 0), (fStrB, 4)] {}).2
      = [refRegion 0 8 fStrA.name, refRegion 4 8 fStrB.name]
    ∧ (buildFields bufTwoStr 0 recNone [(fStrA, 0), (fStrB, 4)] {}).1.sections_.countP
        (fun e => decide (e.1 = 8 ∧ e.2.type = BinarySectionType.String)) = 1 :=
  string_dedup bufTwoStr 0 0 4 8 4 8 2 fStrA fStrB recNone {}
    (by decide) (by decide) (by rfl) (by decide) (by rfl) (by decide)
    (by decide) (by decide) (by rfl) (by decide)

/-- A successful vtable decode yields a section of type VTable, and a
field-less object yields an entry-less cache record. -/
theorem decodeVTableAt_props (buf : List Nat) (V : Nat) (obj : Object)
    (vt : VTable) (sec : BinarySection) (h : decodeVTableAt buf V obj = Except.ok (vt, sec)) :
    sec.type = BinarySectionType.VTable ∧ (obj.fields = [] → vt.fields = []) := by
  unfold decodeVTableAt at h
  repeat' split at h
  all_goals try exact absurd h (fun hh => Except.noConfusion hh)
  simp only [Except.ok.injEq, Prod.mk.injEq] at h
  obtain ⟨h1, h2⟩ := h
  subst h2
  constructor
  · rfl
  · intro hf
    rw [← h1]
    simp [hf]

/-- Lookup in the vtable cache finds the entry at the head. -/
theorem lookupVT_head (V : Nat) (vt : VTable) (l : List (Nat × VTable)) :
    lookupVT V ((V, vt) :: l) = some vt := by
  simp [lookupVT, List.find?]

/-- C3: when the tables at offsets `A` and `B` both resolve their leading
4-byte backward offset to the same vtable offset `V`, the vtable is decoded
and its section inserted once by the first table, the second table finds `V`
in the `vtables_` cache and reuses the cached decode without inserting a
second section, so exactly one VTable section is keyed at `V`, while both
tables' leading regions record `points_to_offset = V`.  (The objects carry no
fields so that the theorem isolates the vtable dedup mechanism.) -/
theorem vtable_dedup (buf : List Nat) (sch : Schema) (fuel A B V aRaw bRaw : Nat)
    (secT : BinarySectionType) (objA objB : Object) (st0 : AnnState)
    (vtA : VTable) (vsecA : BinarySection)
    (hA1 : readScalar buf A 4 = Except.ok aRaw)
    (hA2 : sOffsetTarget A aRaw = some V)
    (hAd : decodeVTableAt buf V objA = Except.ok (vtA, vsecA))
    (hAf : objA.fields = [])
    (hB1 : readScalar buf B 4 = Except.ok bRaw)
    (hB2 : sOffsetTarget B bRaw = some V)
    (hV : lookupVT V st0.vtables_ = none)
    (hsV : ∀ e ∈ st0.sections_, e.1 ≠ V)
    (hsA : ∀ e ∈ st0.sections_, e.1 ≠ A)
    (hsB : ∀ e ∈ st0.sections_, e.1 ≠ B)
    (hAV : A ≠ V) (hBV : B ≠ V) (hAB : A ≠ B) :
    ((BuildTable buf sch (fuel + 1) B secT objB
        (BuildTable buf sch (fuel + 1) A secT objA st0)).sections_.countP
      (fun e => decide (e.1 = V ∧ e.2.type = BinarySectionType.VTable)) = 1)
    ∧ (A, { name := objA.name, type := secT, regions := [leadRegion A V] })
        ∈ (BuildTable buf sch (fuel + 1) B secT objB
            (BuildTable buf sch (fuel + 1) A secT objA st0)).sections_
    ∧ (B, { name := objB.name, type := secT, regions := [leadRegion B V] })
        ∈ (BuildTable buf sch (fuel + 1) B secT objB
            (BuildTable buf sch (fuel + 1) A secT objA st0)).sections_ := by
  have hvf : vtA.fields = [] := (decodeVTableAt_props buf V objA vtA vsecA hAd).2 hAf
  have hvtype : vsecA.type = BinarySectionType.VTable :=
    (decodeVTableAt_props buf V objA vtA vsecA hAd).1
  have eA : BuildVTable buf A objA st0
      = ({ st0 with vtables_ := (V, vtA) :: st0.vtables_,
                    sections_ := insertSec V vsecA st0.sections_ }, Except.ok (V, vtA)) := by
    unfold BuildVTable
    simp only [hA1, hA2, hV, hAd]
  have eTA : BuildTable buf sch (fuel + 1) A secT objA st0
      = { st0 with vtables_ := (V, vtA) :: st0.vtables_,
                   sections_ := insertSec A
                     { name := objA.name, type := secT, regions := [leadRegion A V] }
                     (insertSec V vsecA st0.sections_) } := by
    simp only [BuildTable, eA, hvf, buildFields]
  have eB : BuildVTable buf B objB (BuildTable buf sch (fuel + 1) A secT objA st0)
      = (BuildTable buf sch (fuel + 1) A secT objA st0, Except.ok (V, vtA)) := by
    rw [eTA]
    unfold BuildVTable
    simp only [hB1, hB2, lookupVT_head]
  have eTB : BuildTable buf sch (fuel + 1) B secT objB
        (BuildTable buf sch (fuel + 1) A secT objA st0)
      = { st0 with vtables_ := (V, vtA) :: st0.vtables_,
                   sections_ := insertSec B
                     { name := objB.name, type := secT, regions := [leadRegion B V] }
                     (insertSec A
                       { name := objA.name, type := secT, regions := [leadRegion A V] }
                       (insertSec V vsecA st0.sections_)) } := by
    conv_lhs => rw [BuildTable.eq_def]
    simp only [eB, hvf, buildFields]
    rw [eTA]
  have frA : ∀ e ∈ insertSec V vsecA st0.sections_, e.1 ≠ A := by
    intro e he
    rcases mem_insertSec_elim _ _ _ _ he with h5 | h5
    · subst h5
      show V ≠ A
      exact Ne.symm hAV
    · exact hsA e h5
  have frB : ∀ e ∈ insertSec A
      { name := objA.name, type := secT, regions := [leadRegion A V] }
      (insertSec V vsecA st0.sections_), e.1 ≠ B := by
    intro e he
    rcases mem_insertSec_elim _ _ _ _ he with h5 | h5
    · subst h5
      show A ≠ B
      exact hAB
    · rcases mem_insertSec_elim _ _ _ _ h5 with h6 | h6
      · subst h6
        show V ≠ B
        exact Ne.symm hBV
      · exact hsB e h6
  rw [eTB]
  refine ⟨?_, ?_, ?_⟩
  · dsimp only
    rw [countP_insertSec _ _ _ _ frB, countP_insertSec _ _ _ _ frA,
        countP_insertSec _ _ _ _ hsV]
    have hz : st0.sections_.countP
        (fun e => decide (e.1 = V ∧ e.2.type = BinarySectionType.VTable)) = 0 := by
      refine List.countP_eq_zero.mpr ?_
      intro e he
      simp [hsV e he]
    rw [hz]
    simp [hvtype, hAV, hBV]
  · exact mem_insertSec _ _ _ _ (insertSec_self _ _ _ frA)
  · exact insertSec_self _ _ _ frB

/-- Witness for C3: tables at offsets 4 and 8 of a concrete buffer whose
backward offsets both resolve to the vtable at offset 0. -/
theorem vtable_dedup_witness :
    ((BuildTable bufShared {} 1 8 BinarySectionType.Table objEmpty
        (BuildTable bufShared {} 1 4 BinarySectionType.Table objEmpty {})).sections_.countP
      (fun e => decide (e.1 = 0 ∧ e.2.type = BinarySectionType.VTable)) = 1)
    ∧ (4, { name := objEmpty.name, type := BinarySectionType.Table, regions := [leadRegion 4 0] })
        ∈ (BuildTable bufShared {} 1 8 BinarySectionType.Table objEmpty
            (BuildTable bufShared {} 1 4 BinarySectionType.Table objEmpty {})).sections_
    ∧ (8, { name := objEmpty.name, type := BinarySectionType.Table, regions := [leadRegion 8 0] })
        ∈ (BuildTable bufShared {} 1 8 BinarySectionType.Table objEmpty
            (BuildTable bufShared {} 1 4 BinarySectionType.Table objEmpty {})).sections_ :=
  vtable_dedup bufShared {} 0 4 8 0 4 8 BinarySectionType.Table objEmpty objEmpty {}
    { fields := [], vtable_size := 4, table_size := 4 }
    { name := objEmpty.name, type := BinarySectionType.VTable,
      regions := [{ offset := 0, length := 2, type := BinaryRegionType.Uint16,
                    comment := "size of this vtable" },
                  { offset := 2, length := 2, type := BinaryRegionType.Uint16,
                    comment := "size of referring table" }] }
    (by rfl) (by rfl) (by rfl) (by rfl) (by rfl) (by rfl) (by rfl)
    (by decide) (by decide) (by decide) (by decide) (by decide) (by decide)

/-- C5: `Annotate` is idempotent and stateless across calls: the member state
left behind by a call is the empty state, a second call on the same
annotator returns the same result map as the first, and the result does not
depend on whatever member state the annotator held before the call (so a
second invocation starts from the same empty caches as the first). -/
theorem Annotate_idempotent (a : Annotator) :
    (Annotate a).1.st = ({} : AnnState)
    ∧ (Annotate (Annotate a).1).2 = (Annotate a).2
    ∧ (∀ st0 : AnnState, (Annotate { a with st := st0 }).2 = (Annotate a).2) :=
  ⟨rfl, rfl, fun _ => rfl⟩

/-- C6: the recursion-depth cap guards every table decode: at depth budget 0
the decoder records a RecursionLimitExceeded error section at the table's
offset instead of recursing, and on a concrete buffer whose table chain is
longer than the budget the decode result contains the RecursionLimitExceeded
error marker (rather than recursing unboundedly). -/
theorem BuildTable_recursion_guard :
    (∀ (buf : List Nat) (sch : Schema) (T : Nat) (secT : BinarySectionType)
        (obj : Object) (st : AnnState),
      BuildTable buf sch 0 T secT obj st = recordError st T AnnError.recursionLimitExceeded)
    ∧ ((14, errorSection 14 AnnError.recursionLimitExceeded)
        ∈ (BuildTable bufChain schChain 1 6 BinarySectionType.Table objChain {}).sections_) :=
  ⟨fun _ _ _ _ _ _ => rfl, by decide⟩

/-- C7: decode errors abort only their subtree.  First, the top-level
`annotate` returns a result map exactly when the header can be read and the
root offset lands inside the buffer, and fails outright otherwise.  Second,
the table decoder only ever adds sections, so a failure in one subtree
(recorded as an error-marker section) never destroys sibling sections.
Third, on a concrete buffer whose root table has a well-formed scalar field
and a table field pointing beyond the buffer, the result map still contains
the full root table section (both field regions present) alongside an
explicit OutOfBounds error-marker section for the dead subtree. -/
theorem annotate_subtree_errors :
    (∀ (sch : Schema) (buf : List Nat),
      (∃ m, annotate sch buf = Except.ok m) ↔ 4 ≤ buf.length ∧ leVal buf 0 4 < buf.length)
    ∧ (∀ (buf : List Nat) (sch : Schema) (fuel T : Nat) (secT : BinarySectionType)
        (obj : Object) (st : AnnState) (e : Nat × BinarySection),
        e ∈ st.sections_ → e ∈ (BuildTable buf sch fuel T secT obj st).sections_)
    ∧ (annotate schSib bufSib = Except.ok resSib
       ∧ (117, errorSection 117 (AnnError.outOfBounds 117 4)) ∈ resSib
       ∧ (12, { name := "O7", type := BinarySectionType.RootTable,
                regions := [leadRegion 12 4, scalarRegion 16 BaseType.UByte "hp",
                            refRegion 17 117 "child"] }) ∈ resSib) := by
  refine ⟨fun sch buf => ?_, sections_BuildTable, by rfl, by decide, by decide⟩
  unfold annotate BuildHeader readScalar
  by_cases h1 : 0 + 4 ≤ buf.length
  · simp only [if_pos h1]
    by_cases h2 : 0 + leVal buf 0 4 < buf.length
    · simp only [if_pos h2]
      constructor
      · intro _
        constructor
        · omega
        · omega
      · intro _
        exact ⟨_, rfl⟩
    · simp only [if_neg h2]
      constructor
      · intro ⟨m, hm⟩
        exact absurd hm (fun hh => Except.noConfusion hh)
      · intro hh
        exact absurd hh.2 (by omega)
  · simp only [if_neg h1]
    constructor
    · intro ⟨m, hm⟩
      exact absurd hm (fun hh => Except.noConfusion hh)
    · intro hh
      exact absurd hh.1 (by omega)

/-- Witness for C7: the section-preservation conjunct applied at a concrete
pre-existing section and a table decode whose vtable read fails out of
bounds. -/
theorem annotate_subtree_errors_witness :
    (0, PaddingSection 0 1) ∈ (BuildTable bufSib schSib 1 99 BinarySectionType.Table objSib
      { sections_ := [(0, PaddingSection 0 1)] }).sections_ :=
  annotate_subtree_errors.2.1 bufSib schSib 1 99 BinarySectionType.Table objSib
    { sections_ := [(0, PaddingSection 0 1)] } (0, PaddingSection 0 1) (by decide)

/-- C8: the header decoder reads the 4-byte forward offset at absolute offset
0 and returns `0 + value` as the root offset, emitting a Header section whose
first region is that offset region (pointing at the root) and which carries,
exactly when the schema declares a file identifier, a 4-byte character-array
region immediately following it. -/
theorem BuildHeader_spec (buf : List Nat) (sch : Schema) (h : 4 ≤ buf.length) :
    readScalar buf 0 4 = Except.ok (leVal buf 0 4)
    ∧ ∃ sec, BuildHeader buf sch = Except.ok (0 + leVal buf 0 4, sec)
        ∧ sec.type = BinarySectionType.Header
        ∧ sec.regions.head? = some (refRegion 0 (0 + leVal buf 0 4) "offset to root table")
        ∧ (sch.fileIdent = true →
            sec.regions = [refRegion 0 (0 + leVal buf 0 4) "offset to root table",
              { offset := 4, length := 4, type := BinaryRegionType.Char, array_length := 4,
                comment := "File Identifier" }])
        ∧ (sch.fileIdent = false →
            sec.regions = [refRegion 0 (0 + leVal buf 0 4) "offset to root table"]) := by
  have hr : readScalar buf 0 4 = Except.ok (leVal buf 0 4) := by
    unfold readScalar
    rw [if_pos (by omega)]
  have he : BuildHeader buf sch = Except.ok (0 + leVal buf 0 4,
      { name := "", type := BinarySectionType.Header,
        regions := refRegion 0 (0 + leVal buf 0 4) "offset to root table"
          :: (if sch.fileIdent then
                [{ offset := 4, length := 4, type := BinaryRegionType.Char, array_length := 4,
                   comment := "File Identifier" }]
              else []) }) := by
    unfold BuildHeader
    rw [hr]
  refine ⟨hr, _, he, rfl, rfl, fun hf => ?_, fun hf => ?_⟩
  · simp [hf]
  · simp [hf]

/-- Witness for C8: the header of the concrete subtree-error buffer with a
schema declaring a file identifier. -/
theorem BuildHeader_spec_witness :
    readScalar bufSib 0 4 = Except.ok (leVal bufSib 0 4)
    ∧ ∃ sec, BuildHeader bufSib { fileIdent := true }
          = Except.ok (0 + leVal bufSib 0 4, sec)
        ∧ sec.type = BinarySectionType.Header
        ∧ sec.regions.head? = some (refRegion 0 (0 + leVal bufSib 0 4) "offset to root table")
        ∧ ((true : Bool) = true →
            sec.regions = [refRegion 0 (0 + leVal bufSib 0 4) "offset to root table",
              { offset := 4, length := 4, type := BinaryRegionType.Char, array_length := 4,
                comment := "File Identifier" }])
        ∧ ((true : Bool) = false →
            sec.regions = [refRegion 0 (0 + leVal bufSib 0 4) "offset to root table"]) :=
  BuildHeader_spec bufSib { fileIdent := true } (by decide)

/-- C9: for every reflection scalar base type it handles, `GetRegionType`
returns a `BinaryRegionType` of the same byte width, though not necessarily
the same signedness or kind: UType, Bool, Byte and UByte all map to Uint8
(never to the Bool or Byte region kinds), the signed 32-bit Int maps to
Uint32, and every unhandled base type maps to Unknown. -/
theorem GetRegionType_widths :
    (∀ bt, isScalarBase bt = true → regionTypeSize (GetRegionType bt) = baseTypeSize bt)
    ∧ GetRegionType BaseType.UType = BinaryRegionType.Uint8
    ∧ GetRegionType BaseType.Bool = BinaryRegionType.Uint8
    ∧ GetRegionType BaseType.Byte = BinaryRegionType.Uint8
    ∧ GetRegionType BaseType.UByte = BinaryRegionType.Uint8
    ∧ GetRegionType BaseType.Bool ≠ BinaryRegionType.Bool
    ∧ GetRegionType BaseType.Byte ≠ BinaryRegionType.Byte
    ∧ GetRegionType BaseType.Int = BinaryRegionType.Uint32
    ∧ (∀ bt, isScalarBase bt = false → GetRegionType bt = BinaryRegionType.Unknown) := by
  refine ⟨fun bt => ?_, by decide, by decide, by decide, by decide, by decide, by decide,
    by decide, fun bt => ?_⟩ <;> cases bt <;> decide

/-- Witness for C9: the width equation at the handled scalar Int and the
Unknown fallback at the unhandled Obj kind. -/
theorem GetRegionType_widths_witness :
    regionTypeSize (GetRegionType BaseType.Int) = baseTypeSize BaseType.Int
    ∧ GetRegionType BaseType.Obj = BinaryRegionType.Unknown :=
  ⟨GetRegionType_widths.1 BaseType.Int (by decide),
   GetRegionType_widths.2.2.2.2.2.2.2.2 BaseType.Obj (by decide)⟩

/-- C10: in `BinaryRegion` the fields `array_length` and `points_to_offset`
default to 0, and 0 is the only absent sentinel: a region built with an
explicit `points_to_offset` of 0 (an indirection to absolute offset 0) is
the very same value as a region whose target was left absent, and a region
built with an explicit `array_length` of 0 (an empty inline array) is the
very same value as a non-array region, so the two cannot be represented
distinctly. -/
theorem BinaryRegion_zero_sentinel :
    (({} : BinaryRegion).array_length = 0)
    ∧ (({} : BinaryRegion).points_to_offset = 0)
    ∧ (∀ o l t al c,
        ({ offset := o, length := l, type := t, array_length := al,
                        points_to_offset := 0, comment := c } : BinaryRegion)
          = { offset := o, length := l, type := t, array_length := al, comment := c })
    ∧ (∀ o l t pt c,
        ({ offset := o, length := l, type := t, array_length := 0,
                        points_to_offset := pt, comment := c } : BinaryRegion)
          = { offset := o, length := l, type := t, points_to_offset := pt, comment := c })
    ∧ (∀ r : BinaryRegion, r.points_to_offset = 0 →
        r = { r with points_to_offset := ({} : BinaryRegion).points_to_offset })
    ∧ (∀ r : BinaryRegion, r.array_length = 0 →
        r = { r with array_length := ({} : BinaryRegion).array_length }) := by
  refine ⟨rfl, rfl, fun _ _ _ _ _ => rfl, fun _ _ _ _ _ => rfl,
    fun r h => ?_, fun r h => ?_⟩ <;>
    · obtain ⟨o, l, t, al, pt, c⟩ := r
      simp only at h
      subst h
      rfl

/-- Witness for C10: a concrete region with target left absent equals itself
with the target set to the default. -/
theorem BinaryRegion_zero_sentinel_witness :
    ({ offset := 3, length := 2, type := BinaryRegionType.Uint8 } : BinaryRegion)
      = { ({ offset := 3, length := 2, type := BinaryRegionType.Uint8 } : BinaryRegion) with
          points_to_offset := ({} : BinaryRegion).points_to_offset } :=
  BinaryRegion_zero_sentinel.2.2.2.2.1
    { offset := 3, length := 2, type := BinaryRegionType.Uint8 } rfl

/-- C2 counterexample: the raw `GetScalar` read does not fail out of bounds
and its result can depend on bytes outside the buffer.  With a 2-byte buffer
(addresses 0 and 1), the memories `memZero` and `memJunk` agree on every
buffer byte, yet a 4-byte read at offset 0 returns two different values —
the read silently consumed bytes 2 and 3 beyond the buffer instead of
failing with an out-of-bounds error. -/
theorem GetScalar_escapes_buffer :
    memZero 0 = memJunk 0 ∧ memZero 1 = memJunk 1
    ∧ GetScalar memZero 0 4 = 0
    ∧ GetScalar memJunk 0 4 = 117899264
    ∧ GetScalar memZero 0 4 ≠ GetScalar memJunk 0 4 :=
  ⟨rfl, rfl, by decide, by decide, by decide⟩

/-- C2 (amended): `GetScalar` performs an unchecked read with no failure
path: for any offset and width it totally returns the little-endian value
assembled from exactly the bytes `[offset, offset + width)` of process
memory, regardless of any buffer bound — two memories agreeing on that range
yield the same value, even when the range extends beyond the buffer. -/
theorem GetScalar_reads_exact_range (mem1 mem2 : Nat → Nat) (offset w : Nat)
    (h : ∀ i, offset ≤ i → i < offset + w → mem1 i = mem2 i) :
    GetScalar mem1 offset w = GetScalar mem2 offset w := by
  induction w generalizing offset with
  | zero => rfl
  | succ w ih =>
    unfold GetScalar
    rw [h offset (Nat.le_refl _) (by omega),
        ih (offset + 1) (fun i h1 h2 => h i (by omega) (by omega))]

/-- Witness for C2 (amended): a 2-byte read at offset 1 agrees between
`memJunk` and `memJunk2`, which differ only at address 0. -/
theorem GetScalar_reads_exact_range_witness :
    GetScalar memJunk 1 2 = GetScalar memJunk2 1 2 :=
  GetScalar_reads_exact_range memJunk memJunk2 1 2 (fun i h1 h2 => by
    have h3 : i = 1 ∨ i = 2 := by omega
    rcases h3 with h3 | h3 <;> subst h3 <;> rfl)

end BinaryAnnotatorProof
